import Mathlib

/-!
Shallow embedding of the directed-graph social-network core (`Q2.py`):
the generic `DirectedGraph`, the `Person` entity with its `Privacy`
visibility tag, and the `SocialMediaApp` facade.

Python dictionaries are modelled as association lists (`List (K × V)`),
with lookup on the first matching key and value update in place;
Python sets are modelled as duplicate-free lists.  An operation of the
source that subscripts a dictionary without a guard (`d[k]`) is embedded
as an `Option`-valued function whose `none` result stands for the
`KeyError` that Python would raise; guarded accesses stay total.
-/

section Dict

variable {K : Type} {V : Type} [DecidableEq K]

/-- `d.get(k)` on a Python dict: the value at the first matching key. -/
def dictGet : List (K × V) → K → Option V
  | [], _ => none
  | (k', v) :: rest, k => if k' = k then some v else dictGet rest k

/-- `k in d` on a Python dict. -/
def dictContains (d : List (K × V)) (k : K) : Bool :=
  (dictGet d k).isSome

/-- `d[k] = v` on a Python dict: update in place if the key is present,
append otherwise. -/
def dictSet : List (K × V) → K → V → List (K × V)
  | [], k, v => [(k, v)]
  | (k', v') :: rest, k, v =>
    if k' = k then (k', v) :: rest else (k', v') :: dictSet rest k v

/-- `s.add(x)` on a Python set (modelled as a duplicate-free list). -/
def setAdd (s : List K) (x : K) : List K :=
  if x ∈ s then s else s ++ [x]

/-- `s.remove(x)` on a Python set: drop the element (first occurrence). -/
def setRemove : List K → K → List K
  | [], _ => []
  | y :: rest, x => if y = x then rest else y :: setRemove rest x

end Dict

section Graph

/-- `DirectedGraph` from `Q2.py`: `_adjacency_list` maps a vertex id to the
set of its outgoing neighbours, `_vertices` maps a vertex id to its data. -/
structure DirectedGraph (K : Type) (A : Type) where
  adjacency_list : List (K × List K)
  vertices : List (K × A)
deriving DecidableEq, Repr

variable {K : Type} {A : Type} [DecidableEq K]

/-- `DirectedGraph.__init__`: both dictionaries start empty. -/
def DirectedGraph.emptyGraph : DirectedGraph K A := ⟨[], []⟩

/-- `DirectedGraph.add_vertex`. -/
def DirectedGraph.add_vertex (g : DirectedGraph K A) (vertex_id : K)
    (vertex_data : A) : DirectedGraph K A × Bool :=
  if dictContains g.vertices vertex_id then (g, false)
  else ({ vertices := dictSet g.vertices vertex_id vertex_data,
          adjacency_list := dictSet g.adjacency_list vertex_id [] }, true)

/-- `DirectedGraph.add_edge`.  The subscript
`self._adjacency_list[from_vertex]` is unguarded, hence the `Option`. -/
def DirectedGraph.add_edge (g : DirectedGraph K A) (from_vertex to_vertex : K) :
    Option (DirectedGraph K A × Bool) :=
  if !dictContains g.vertices from_vertex || !dictContains g.vertices to_vertex then
    some (g, false)
  else
    match dictGet g.adjacency_list from_vertex with
    | none => none
    | some s =>
      if to_vertex ∈ s then some (g, false)
      else some ({ g with
        adjacency_list := dictSet g.adjacency_list from_vertex (setAdd s to_vertex) },
        true)

/-- `DirectedGraph.remove_edge`.  Same unguarded subscript as `add_edge`. -/
def DirectedGraph.remove_edge (g : DirectedGraph K A) (from_vertex to_vertex : K) :
    Option (DirectedGraph K A × Bool) :=
  if !dictContains g.vertices from_vertex || !dictContains g.vertices to_vertex then
    some (g, false)
  else
    match dictGet g.adjacency_list from_vertex with
    | none => none
    | some s =>
      if to_vertex ∈ s then
        some ({ g with
          adjacency_list := dictSet g.adjacency_list from_vertex (setRemove s to_vertex) },
          true)
      else some (g, false)

/-- `DirectedGraph.list_outgoing_adjacent_vertices`. -/
def DirectedGraph.list_outgoing_adjacent_vertices (g : DirectedGraph K A)
    (vertex : K) : Option (List K) :=
  if !dictContains g.vertices vertex then some []
  else dictGet g.adjacency_list vertex

/-- `DirectedGraph.list_incoming_adjacent_vertices`: scan every vertex's
adjacency set for membership of `vertex`, in insertion order. -/
def DirectedGraph.list_incoming_adjacent_vertices (g : DirectedGraph K A)
    (vertex : K) : List K :=
  if !dictContains g.vertices vertex then []
  else (g.adjacency_list.filter (fun p => vertex ∈ p.2)).map Prod.fst

/-- `DirectedGraph.get_vertex_data`: `self._vertices.get(vertex_id)`. -/
def DirectedGraph.get_vertex_data (g : DirectedGraph K A) (vertex_id : K) :
    Option A :=
  dictGet g.vertices vertex_id

/-- `DirectedGraph.get_all_vertices`: `list(self._vertices.keys())`. -/
def DirectedGraph.get_all_vertices (g : DirectedGraph K A) : List K :=
  g.vertices.map Prod.fst

/-- `DirectedGraph.vertex_exists`. -/
def DirectedGraph.vertex_exists (g : DirectedGraph K A) (vertex_id : K) : Bool :=
  dictContains g.vertices vertex_id

end Graph

section Entity

/-- The `Privacy` enum. -/
inductive Privacy where
  | PUBLIC
  | PRIVATE
deriving DecidableEq, Repr

/-- `Privacy.value`: the string payload of each enum member. -/
def Privacy.value : Privacy → String
  | .PUBLIC => "public"
  | .PRIVATE => "private"

/-- The `Person` entity class. -/
structure Person where
  user_id : String
  name : String
  gender : String
  biography : String
  privacy : Privacy
  age : Option Int
  location : String
deriving DecidableEq, Repr

/-- The dictionary returned by `Person.get_full_info` (fixed keys, so a
record rather than a heterogeneous map). -/
structure FullInfo where
  user_id : String
  name : String
  gender : String
  biography : String
  privacy : String
  age : Option Int
  location : String
deriving DecidableEq, Repr

/-- `Person.get_full_info`. -/
def Person.get_full_info (p : Person) : FullInfo :=
  { user_id := p.user_id
    name := p.name
    gender := p.gender
    biography := p.biography
    privacy := p.privacy.value
    age := p.age
    location := p.location }

/-- The dictionary returned by `Person.get_public_info`. -/
structure PublicInfo where
  user_id : String
  name : String
deriving DecidableEq, Repr

/-- `Person.get_public_info`. -/
def Person.get_public_info (p : Person) : PublicInfo :=
  { user_id := p.user_id, name := p.name }

end Entity

section App

/-- `SocialMediaApp`: owns the graph (keyed by user id, payload a
`Person`) and the `users` dictionary. -/
structure SocialMediaApp where
  graph : DirectedGraph String Person
  users : List (String × Person)
deriving DecidableEq, Repr

/-- `SocialMediaApp.__init__`. -/
def SocialMediaApp.emptyApp : SocialMediaApp :=
  ⟨DirectedGraph.emptyGraph, []⟩

/-- `SocialMediaApp.add_user`. -/
def SocialMediaApp.add_user (app : SocialMediaApp) (person : Person) :
    SocialMediaApp × Bool :=
  if dictContains app.users person.user_id then (app, false)
  else
    let users' := dictSet app.users person.user_id person
    let gr := app.graph.add_vertex person.user_id person
    ({ graph := gr.1, users := users' }, gr.2)

/-- `SocialMediaApp.follow_user`. -/
def SocialMediaApp.follow_user (app : SocialMediaApp)
    (follower_id followee_id : String) : Option (SocialMediaApp × Bool) :=
  if !dictContains app.users follower_id || !dictContains app.users followee_id then
    some (app, false)
  else
    (app.graph.add_edge follower_id followee_id).map
      (fun gr => ({ app with graph := gr.1 }, gr.2))

/-- `SocialMediaApp.unfollow_user`. -/
def SocialMediaApp.unfollow_user (app : SocialMediaApp)
    (follower_id followee_id : String) : Option (SocialMediaApp × Bool) :=
  (app.graph.remove_edge follower_id followee_id).map
    (fun gr => ({ app with graph := gr.1 }, gr.2))

/-- `SocialMediaApp.get_following`: the guarded comprehension
`[self.users[uid] for uid in following_ids if uid in self.users]`. -/
def SocialMediaApp.get_following (app : SocialMediaApp) (user_id : String) :
    Option (List Person) :=
  (app.graph.list_outgoing_adjacent_vertices user_id).map
    (fun ids => ids.filterMap (fun uid => dictGet app.users uid))

/-- `SocialMediaApp.get_followers`. -/
def SocialMediaApp.get_followers (app : SocialMediaApp) (user_id : String) :
    List Person :=
  (app.graph.list_incoming_adjacent_vertices user_id).filterMap
    (fun uid => dictGet app.users uid)

/-- `SocialMediaApp.get_all_users`: `list(self.users.values())`. -/
def SocialMediaApp.get_all_users (app : SocialMediaApp) : List Person :=
  app.users.map Prod.snd

/-- `SocialMediaApp.get_user`: `self.users.get(user_id)`. -/
def SocialMediaApp.get_user (app : SocialMediaApp) (user_id : String) :
    Option Person :=
  dictGet app.users user_id

end App

section Invariants

variable {K : Type} {A : Type} [DecidableEq K]

/-- The graph invariant: the key set of `adjacency_list` coincides with the
key set of `vertices`, and every id inside any adjacency set is a key of
`vertices`. -/
def DirectedGraph.Inv (g : DirectedGraph K A) : Prop :=
  (∀ v : K, dictContains g.adjacency_list v = true ↔
    dictContains g.vertices v = true) ∧
  (∀ v : K, ∀ s : List K, dictGet g.adjacency_list v = some s →
    ∀ w ∈ s, dictContains g.vertices w = true)

/-- Well-formedness of the set representation: each adjacency set, being a
Python `set`, holds no duplicates. -/
def DirectedGraph.AdjNodup (g : DirectedGraph K A) : Prop :=
  ∀ v : K, ∀ s : List K, dictGet g.adjacency_list v = some s → s.Nodup

/-- Well-formedness of the dict representation: the adjacency dictionary,
being a Python dict, has no duplicate keys. -/
def DirectedGraph.AdjKeysNodup (g : DirectedGraph K A) : Prop :=
  (g.adjacency_list.map Prod.fst).Nodup

/-- The facade's lock-step invariant: an id is a key of `users` iff it is a
vertex of the owned graph. -/
def SocialMediaApp.LockStep (app : SocialMediaApp) : Prop :=
  ∀ id : String, dictContains app.users id = true ↔
    app.graph.vertex_exists id = true

/-- There is an edge `a → b`: `b` is in the adjacency set stored for `a`. -/
def DirectedGraph.hasEdge (g : DirectedGraph K A) (a b : K) : Prop :=
  ∃ s : List K, dictGet g.adjacency_list a = some s ∧ b ∈ s

end Invariants

section DictLemmas

variable {K : Type} {V : Type} [DecidableEq K]

theorem dictGet_dictSet_self (d : List (K × V)) (k : K) (v : V) :
    dictGet (dictSet d k v) k = some v := by
  induction d with
  | nil => simp [dictGet, dictSet]
  | cons hd tl ih =>
    rcases hd with ⟨k', v'⟩
    by_cases h : k' = k
    · subst h; simp [dictGet, dictSet]
    · simp [dictGet, dictSet, h, ih]

theorem dictGet_dictSet_ne (d : List (K × V)) (k k' : K) (v : V)
    (h : k' ≠ k) : dictGet (dictSet d k v) k' = dictGet d k' := by
  induction d with
  | nil => simp [dictGet, dictSet, Ne.symm h]
  | cons hd tl ih =>
    rcases hd with ⟨k₀, v₀⟩
    by_cases h₀ : k₀ = k
    · subst h₀
      simp [dictGet, dictSet, Ne.symm h]
    · simp [dictGet, dictSet, h₀, ih]

theorem dictContains_dictSet (d : List (K × V)) (k k' : K) (v : V) :
    dictContains (dictSet d k v) k' = true ↔
      (k' = k ∨ dictContains d k' = true) := by
  by_cases h : k' = k
  · subst h
    simp [dictContains, dictGet_dictSet_self]
  · simp [dictContains, dictGet_dictSet_ne d k k' v h, h]

theorem dictContains_iff_get (d : List (K × V)) (k : K) :
    dictContains d k = true ↔ ∃ v, dictGet d k = some v := by
  simp [dictContains, Option.isSome_iff_exists]

theorem mem_setAdd (s : List K) (x w : K) :
    w ∈ setAdd s x ↔ w ∈ s ∨ w = x := by
  by_cases h : x ∈ s
  · constructor
    · intro hw; exact Or.inl (by simpa [setAdd, h] using hw)
    · intro hw
      rcases hw with hw | hw
      · simpa [setAdd, h]
      · subst hw; simpa [setAdd, h]
  · simp [setAdd, h]

theorem setAdd_nodup (s : List K) (x : K) (h : s.Nodup) :
    (setAdd s x).Nodup := by
  by_cases hx : x ∈ s
  · simpa [setAdd, hx]
  · simp [setAdd, hx, List.nodup_append, h, hx]

theorem mem_setRemove_of_mem (s : List K) (x w : K)
    (h : w ∈ setRemove s x) : w ∈ s := by
  induction s with
  | nil => simpa [setRemove] using h
  | cons y rest ih =>
    by_cases hy : y = x
    · subst hy
      simp [setRemove] at h
      exact List.mem_cons_of_mem _ h
    · simp [setRemove, hy] at h
      rcases h with h | h
      · exact h ▸ List.mem_cons_self _ _
      · exact List.mem_cons_of_mem _ (ih h)

theorem setRemove_nodup (s : List K) (x : K) (h : s.Nodup) :
    (setRemove s x).Nodup := by
  induction s with
  | nil => simpa [setRemove]
  | cons y rest ih =>
    rcases List.nodup_cons.mp h with ⟨hy, hrest⟩
    by_cases hyx : y = x
    · simpa [setRemove, hyx]
    · rw [show setRemove (y :: rest) x = y :: setRemove rest x by
        simp [setRemove, hyx]]
      exact List.nodup_cons.mpr
        ⟨fun hmem => hy (mem_setRemove_of_mem rest x y hmem), ih hrest⟩

theorem mem_setRemove_iff (s : List K) (x w : K) (h : s.Nodup) :
    w ∈ setRemove s x ↔ w ∈ s ∧ w ≠ x := by
  induction s with
  | nil => simp [setRemove]
  | cons y rest ih =>
    rcases List.nodup_cons.mp h with ⟨hy, hrest⟩
    by_cases hyx : y = x
    · subst hyx
      simp [setRemove]
      constructor
      · intro hw
        exact ⟨Or.inr hw, fun hwy => hy (hwy ▸ hw)⟩
      · rintro ⟨hw | hw, hne⟩
        · exact absurd hw hne
        · exact hw
    · simp [setRemove, hyx, ih hrest]
      constructor
      · rintro (h | ⟨h₁, h₂⟩)
        · exact ⟨Or.inl h, h ▸ hyx⟩
        · exact ⟨Or.inr h₁, h₂⟩
      · rintro ⟨h | h, hne⟩
        · exact Or.inl h
        · exact Or.inr ⟨h, hne⟩

end DictLemmas

section GraphLemmas

variable {K : Type} {A : Type} [DecidableEq K]

theorem opt_pair_inj {α β : Type} {x : α} {y : β} {g' : α} {r : β}
    (h : some (x, y) = some (g', r)) : g' = x ∧ r = y := by
  have h' := Option.some.inj h
  exact ⟨(congrArg Prod.fst h').symm, (congrArg Prod.snd h').symm⟩

/-- `add_edge` when an endpoint is missing: returns `false`, graph unchanged. -/
theorem add_edge_missing (g : DirectedGraph K A) (a b : K)
    (h : dictContains g.vertices a = false ∨ dictContains g.vertices b = false) :
    g.add_edge a b = some (g, false) := by
  rcases h with h | h <;> simp [DirectedGraph.add_edge, h]

/-- `add_edge` when both endpoints exist and the adjacency set is found. -/
theorem add_edge_found (g : DirectedGraph K A) (a b : K) (s : List K)
    (ha : dictContains g.vertices a = true) (hb : dictContains g.vertices b = true)
    (hs : dictGet g.adjacency_list a = some s) :
    g.add_edge a b =
      (if b ∈ s then some (g, false)
       else some ({ g with
         adjacency_list := dictSet g.adjacency_list a (setAdd s b) }, true)) := by
  simp [DirectedGraph.add_edge, ha, hb, hs]

/-- `remove_edge` when an endpoint is missing: returns `false`, unchanged. -/
theorem remove_edge_missing (g : DirectedGraph K A) (a b : K)
    (h : dictContains g.vertices a = false ∨ dictContains g.vertices b = false) :
    g.remove_edge a b = some (g, false) := by
  rcases h with h | h <;> simp [DirectedGraph.remove_edge, h]

/-- `remove_edge` when both endpoints exist and the adjacency set is found. -/
theorem remove_edge_found (g : DirectedGraph K A) (a b : K) (s : List K)
    (ha : dictContains g.vertices a = true) (hb : dictContains g.vertices b = true)
    (hs : dictGet g.adjacency_list a = some s) :
    g.remove_edge a b =
      (if b ∈ s then
         some ({ g with
           adjacency_list := dictSet g.adjacency_list a (setRemove s b) }, true)
       else some (g, false)) := by
  simp [DirectedGraph.remove_edge, ha, hb, hs]

/-- Under the invariant, every vertex that exists has an adjacency set. -/
theorem Inv.adj_some (g : DirectedGraph K A) (hInv : g.Inv) (v : K)
    (hv : dictContains g.vertices v = true) :
    ∃ s, dictGet g.adjacency_list v = some s :=
  (dictContains_iff_get g.adjacency_list v).mp ((hInv.1 v).mpr hv)

/-- `add_vertex` preserves the graph invariant. -/
theorem add_vertex_inv (g : DirectedGraph K A) (id : K) (a : A)
    (hInv : g.Inv) : (g.add_vertex id a).1.Inv := by
  rcases hInv with ⟨h1, h2⟩
  by_cases hc : dictContains g.vertices id = true
  · have hg : g.add_vertex id a = (g, false) := by
      simp [DirectedGraph.add_vertex, hc]
    rw [hg]
    exact ⟨h1, h2⟩
  · rw [Bool.not_eq_true] at hc
    simp only [DirectedGraph.add_vertex, hc, Bool.false_eq_true, if_false]
    constructor
    · intro v
      rw [dictContains_dictSet, dictContains_dictSet]
      exact or_congr Iff.rfl (h1 v)
    · intro v s hs w hw
      by_cases hv : v = id
      · subst hv
        rw [dictGet_dictSet_self] at hs
        cases hs
        simp at hw
      · rw [dictGet_dictSet_ne _ _ _ _ hv] at hs
        exact (dictContains_dictSet _ _ _ _).mpr (Or.inr (h2 v s hs w hw))

/-- `add_edge` preserves the graph invariant on every defined result. -/
theorem add_edge_inv (g : DirectedGraph K A) (a b : K)
    (g' : DirectedGraph K A) (r : Bool) (hInv : g.Inv)
    (h : g.add_edge a b = some (g', r)) : g'.Inv := by
  by_cases ha : dictContains g.vertices a = true
  · by_cases hb : dictContains g.vertices b = true
    · obtain ⟨s, hs⟩ := Inv.adj_some g hInv a ha
      rw [add_edge_found g a b s ha hb hs] at h
      by_cases hmem : b ∈ s
      · rw [if_pos hmem] at h
        exact (opt_pair_inj h).1 ▸ hInv
      · rw [if_neg hmem] at h
        rcases opt_pair_inj h with ⟨hg, _⟩
        subst hg
        rcases hInv with ⟨h1, h2⟩
        constructor
        · intro v
          rw [dictContains_dictSet]
          constructor
          · rintro (rfl | hv)
            · exact ha
            · exact (h1 v).mp hv
          · intro hv
            by_cases hva : v = a
            · exact Or.inl hva
            · exact Or.inr ((h1 v).mpr hv)
        · intro v s' hs' w hw
          by_cases hva : v = a
          · subst hva
            rw [dictGet_dictSet_self] at hs'
            cases hs'
            rcases (mem_setAdd s b w).mp hw with hw | rfl
            · exact h2 v s hs w hw
            · exact hb
          · rw [dictGet_dictSet_ne _ _ _ _ hva] at hs'
            exact h2 v s' hs' w hw
    · rw [Bool.not_eq_true] at hb
      rw [add_edge_missing g a b (Or.inr hb)] at h
      exact (opt_pair_inj h).1 ▸ hInv
  · rw [Bool.not_eq_true] at ha
    rw [add_edge_missing g a b (Or.inl ha)] at h
    exact (opt_pair_inj h).1 ▸ hInv

/-- `remove_edge` preserves the graph invariant on every defined result. -/
theorem remove_edge_inv (g : DirectedGraph K A) (a b : K)
    (g' : DirectedGraph K A) (r : Bool) (hInv : g.Inv)
    (h : g.remove_edge a b = some (g', r)) : g'.Inv := by
  by_cases ha : dictContains g.vertices a = true
  · by_cases hb : dictContains g.vertices b = true
    · obtain ⟨s, hs⟩ := Inv.adj_some g hInv a ha
      rw [remove_edge_found g a b s ha hb hs] at h
      by_cases hmem : b ∈ s
      · rw [if_pos hmem] at h
        rcases opt_pair_inj h with ⟨hg, _⟩
        subst hg
        rcases hInv with ⟨h1, h2⟩
        constructor
        · intro v
          rw [dictContains_dictSet]
          constructor
          · rintro (rfl | hv)
            · exact ha
            · exact (h1 v).mp hv
          · intro hv
            by_cases hva : v = a
            · exact Or.inl hva
            · exact Or.inr ((h1 v).mpr hv)
        · intro v s' hs' w hw
          by_cases hva : v = a
          · subst hva
            rw [dictGet_dictSet_self] at hs'
            cases hs'
            exact h2 v s hs w (mem_setRemove_of_mem s b w hw)
          · rw [dictGet_dictSet_ne _ _ _ _ hva] at hs'
            exact h2 v s' hs' w hw
      · rw [if_neg hmem] at h
        exact (opt_pair_inj h).1 ▸ hInv
    · rw [Bool.not_eq_true] at hb
      rw [remove_edge_missing g a b (Or.inr hb)] at h
      exact (opt_pair_inj h).1 ▸ hInv
  · rw [Bool.not_eq_true] at ha
    rw [remove_edge_missing g a b (Or.inl ha)] at h
    exact (opt_pair_inj h).1 ▸ hInv

/-- `add_edge` is always defined under the invariant. -/
theorem add_edge_isSome (g : DirectedGraph K A) (a b : K) (hInv : g.Inv) :
    (g.add_edge a b).isSome = true := by
  by_cases ha : dictContains g.vertices a = true
  · by_cases hb : dictContains g.vertices b = true
    · obtain ⟨s, hs⟩ := Inv.adj_some g hInv a ha
      rw [add_edge_found g a b s ha hb hs]
      by_cases hmem : b ∈ s <;> simp [hmem]
    · rw [Bool.not_eq_true] at hb
      rw [add_edge_missing g a b (Or.inr hb)]
      rfl
  · rw [Bool.not_eq_true] at ha
    rw [add_edge_missing g a b (Or.inl ha)]
    rfl

/-- `remove_edge` is always defined under the invariant. -/
theorem remove_edge_isSome (g : DirectedGraph K A) (a b : K) (hInv : g.Inv) :
    (g.remove_edge a b).isSome = true := by
  by_cases ha : dictContains g.vertices a = true
  · by_cases hb : dictContains g.vertices b = true
    · obtain ⟨s, hs⟩ := Inv.adj_some g hInv a ha
      rw [remove_edge_found g a b s ha hb hs]
      by_cases hmem : b ∈ s <;> simp [hmem]
    · rw [Bool.not_eq_true] at hb
      rw [remove_edge_missing g a b (Or.inr hb)]
      rfl
  · rw [Bool.not_eq_true] at ha
    rw [remove_edge_missing g a b (Or.inl ha)]
    rfl

/-- `add_edge` never touches the `vertices` dictionary. -/
theorem add_edge_vertices (g : DirectedGraph K A) (a b : K)
    (g' : DirectedGraph K A) (r : Bool)
    (h : g.add_edge a b = some (g', r)) : g'.vertices = g.vertices := by
  unfold DirectedGraph.add_edge at h
  split at h
  · obtain ⟨rfl, rfl⟩ := opt_pair_inj h
    rfl
  · split at h
    · exact Option.noConfusion h
    · split at h
      · obtain ⟨rfl, rfl⟩ := opt_pair_inj h
        rfl
      · obtain ⟨rfl, rfl⟩ := opt_pair_inj h
        rfl

/-- `remove_edge` never touches the `vertices` dictionary. -/
theorem remove_edge_vertices (g : DirectedGraph K A) (a b : K)
    (g' : DirectedGraph K A) (r : Bool)
    (h : g.remove_edge a b = some (g', r)) : g'.vertices = g.vertices := by
  unfold DirectedGraph.remove_edge at h
  split at h
  · obtain ⟨rfl, rfl⟩ := opt_pair_inj h
    rfl
  · split at h
    · exact Option.noConfusion h
    · split at h
      · obtain ⟨rfl, rfl⟩ := opt_pair_inj h
        rfl
      · obtain ⟨rfl, rfl⟩ := opt_pair_inj h
        rfl

end GraphLemmas

section MoreDictLemmas

variable {K : Type} {V : Type} [DecidableEq K]

theorem dictGet_mem (d : List (K × V)) (k : K) (v : V)
    (h : dictGet d k = some v) : (k, v) ∈ d := by
  induction d with
  | nil => simp [dictGet] at h
  | cons hd tl ih =>
    rcases hd with ⟨k', v'⟩
    by_cases hk : k' = k
    · subst hk
      rw [dictGet, if_pos rfl] at h
      cases h
      exact List.mem_cons_self _ _
    · rw [dictGet, if_neg hk] at h
      exact List.mem_cons_of_mem _ (ih h)

theorem dictGet_of_mem_nodup (d : List (K × V))
    (hnd : (d.map Prod.fst).Nodup) (k : K) (v : V) (hm : (k, v) ∈ d) :
    dictGet d k = some v := by
  induction d with
  | nil => simp at hm
  | cons hd tl ih =>
    rcases hd with ⟨k', v'⟩
    rcases List.nodup_cons.mp hnd with ⟨hk', htl⟩
    rcases List.mem_cons.mp hm with hm | hm
    · cases hm
      simp [dictGet]
    · have hkk : k' ≠ k := by
        intro hkk
        subst hkk
        exact hk' (List.mem_map.mpr ⟨(k', v), hm, rfl⟩)
      rw [dictGet, if_neg hkk]
      exact ih htl hm

/-- Updating an existing key leaves the key sequence unchanged. -/
theorem dictSet_map_fst_of_get (d : List (K × V)) (k : K) (v w : V)
    (h : dictGet d k = some w) :
    (dictSet d k v).map Prod.fst = d.map Prod.fst := by
  induction d with
  | nil => simp [dictGet] at h
  | cons hd tl ih =>
    rcases hd with ⟨k', v'⟩
    by_cases hk : k' = k
    · subst hk
      simp [dictSet]
    · rw [dictGet, if_neg hk] at h
      simp [dictSet, hk, ih h]

end MoreDictLemmas

section IncomingLemmas

variable {K : Type} {A : Type} [DecidableEq K]

/-- Membership in the incoming-neighbours scan, assuming the adjacency
dictionary has no duplicate keys (as a Python dict cannot). -/
theorem mem_list_incoming (g : DirectedGraph K A) (hk : g.AdjKeysNodup)
    (v w : K) :
    w ∈ g.list_incoming_adjacent_vertices v ↔
      (dictContains g.vertices v = true ∧
        ∃ s, dictGet g.adjacency_list w = some s ∧ v ∈ s) := by
  unfold DirectedGraph.list_incoming_adjacent_vertices
  by_cases hv : dictContains g.vertices v = true
  · rw [hv]
    simp only [Bool.not_true, Bool.false_eq_true, if_false, List.mem_map,
      List.mem_filter]
    constructor
    · rintro ⟨⟨k, s⟩, ⟨hmem, hvs⟩, rfl⟩
      refine ⟨by trivial, s, ?_, by simpa using hvs⟩
      exact dictGet_of_mem_nodup g.adjacency_list hk k s hmem
    · rintro ⟨-, s, hs, hvs⟩
      exact ⟨(w, s), ⟨dictGet_mem _ _ _ hs, by simpa using hvs⟩, rfl⟩
  · rw [Bool.not_eq_true] at hv
    simp [hv]

end IncomingLemmas

section KeysLemmas

variable {K : Type} {V : Type} [DecidableEq K]

theorem dictContains_iff_mem_keys (d : List (K × V)) (k : K) :
    dictContains d k = true ↔ k ∈ d.map Prod.fst := by
  induction d with
  | nil => simp [dictContains, dictGet]
  | cons hd tl ih =>
    rcases hd with ⟨k', v'⟩
    by_cases hk : k' = k
    · subst hk
      simp [dictContains, dictGet]
    · simpa [dictContains, dictGet, hk, Ne.symm hk] using ih

theorem dictSet_map_fst_of_absent (d : List (K × V)) (k : K) (v : V)
    (h : dictContains d k = false) :
    (dictSet d k v).map Prod.fst = d.map Prod.fst ++ [k] := by
  induction d with
  | nil => simp [dictSet]
  | cons hd tl ih =>
    rcases hd with ⟨k', v'⟩
    have hk : k' ≠ k := by
      intro hk
      subst hk
      simp [dictContains, dictGet] at h
    rw [dictContains, dictGet, if_neg hk] at h
    simp [dictSet, hk, ih h]

end KeysLemmas

section NodupPreservation

variable {K : Type} {A : Type} [DecidableEq K]

/-- `add_vertex` keeps the adjacency dictionary's keys duplicate-free. -/
theorem add_vertex_adjKeys (g : DirectedGraph K A) (id : K) (a : A)
    (hI : g.Inv) (h : g.AdjKeysNodup) : (g.add_vertex id a).1.AdjKeysNodup := by
  by_cases hc : dictContains g.vertices id = true
  · have hg : g.add_vertex id a = (g, false) := by
      simp [DirectedGraph.add_vertex, hc]
    rw [hg]
    exact h
  · rw [Bool.not_eq_true] at hc
    have hadj : dictContains g.adjacency_list id = false := by
      rcases hb : dictContains g.adjacency_list id with _ | _
      · rfl
      · exact absurd ((hI.1 id).mp hb) (by rw [hc]; exact Bool.false_ne_true)
    simp only [DirectedGraph.add_vertex, hc, Bool.false_eq_true, if_false]
    show ((dictSet g.adjacency_list id []).map Prod.fst).Nodup
    rw [dictSet_map_fst_of_absent _ _ _ hadj]
    have hnm : id ∉ g.adjacency_list.map Prod.fst := by
      intro hm
      rw [← dictContains_iff_mem_keys] at hm
      rw [hadj] at hm
      exact Bool.false_ne_true hm
    simp [List.nodup_append, hnm]
    exact h

/-- `add_edge` keeps the adjacency dictionary's keys duplicate-free. -/
theorem add_edge_adjKeys (g : DirectedGraph K A) (a b : K)
    (g' : DirectedGraph K A) (r : Bool) (h : g.add_edge a b = some (g', r))
    (hk : g.AdjKeysNodup) : g'.AdjKeysNodup := by
  unfold DirectedGraph.add_edge at h
  split at h
  · obtain ⟨rfl, rfl⟩ := opt_pair_inj h
    exact hk
  · split at h
    · exact Option.noConfusion h
    · split at h
      · obtain ⟨rfl, rfl⟩ := opt_pair_inj h
        exact hk
      · obtain ⟨rfl, rfl⟩ := opt_pair_inj h
        show ((dictSet g.adjacency_list a _).map Prod.fst).Nodup
        rw [dictSet_map_fst_of_get _ _ _ _ (by assumption)]
        exact hk

/-- `remove_edge` keeps the adjacency dictionary's keys duplicate-free. -/
theorem remove_edge_adjKeys (g : DirectedGraph K A) (a b : K)
    (g' : DirectedGraph K A) (r : Bool) (h : g.remove_edge a b = some (g', r))
    (hk : g.AdjKeysNodup) : g'.AdjKeysNodup := by
  unfold DirectedGraph.remove_edge at h
  split at h
  · obtain ⟨rfl, rfl⟩ := opt_pair_inj h
    exact hk
  · split at h
    · exact Option.noConfusion h
    · split at h
      · obtain ⟨rfl, rfl⟩ := opt_pair_inj h
        show ((dictSet g.adjacency_list a _).map Prod.fst).Nodup
        rw [dictSet_map_fst_of_get _ _ _ _ (by assumption)]
        exact hk
      · obtain ⟨rfl, rfl⟩ := opt_pair_inj h
        exact hk

/-- `add_vertex` keeps every adjacency set duplicate-free. -/
theorem add_vertex_adjNodup (g : DirectedGraph K A) (id : K) (a : A)
    (h : g.AdjNodup) : (g.add_vertex id a).1.AdjNodup := by
  by_cases hc : dictContains g.vertices id = true
  · have hg : g.add_vertex id a = (g, false) := by
      simp [DirectedGraph.add_vertex, hc]
    rw [hg]
    exact h
  · rw [Bool.not_eq_true] at hc
    simp only [DirectedGraph.add_vertex, hc, Bool.false_eq_true, if_false]
    intro v s hs
    by_cases hv : v = id
    · subst hv
      rw [dictGet_dictSet_self] at hs
      cases hs
      exact List.nodup_nil
    · rw [dictGet_dictSet_ne _ _ _ _ hv] at hs
      exact h v s hs

/-- `add_edge` keeps every adjacency set duplicate-free. -/
theorem add_edge_adjNodup (g : DirectedGraph K A) (a b : K)
    (g' : DirectedGraph K A) (r : Bool) (h : g.add_edge a b = some (g', r))
    (hn : g.AdjNodup) : g'.AdjNodup := by
  unfold DirectedGraph.add_edge at h
  split at h
  · obtain ⟨rfl, rfl⟩ := opt_pair_inj h
    exact hn
  · split at h
    · exact Option.noConfusion h
    · split at h
      · obtain ⟨rfl, rfl⟩ := opt_pair_inj h
        exact hn
      · obtain ⟨rfl, rfl⟩ := opt_pair_inj h
        intro v s' hs'
        by_cases hv : v = a
        · subst hv
          rw [dictGet_dictSet_self] at hs'
          cases hs'
          exact setAdd_nodup _ _ (hn _ _ (by assumption))
        · rw [dictGet_dictSet_ne _ _ _ _ hv] at hs'
          exact hn v s' hs'

/-- `remove_edge` keeps every adjacency set duplicate-free. -/
theorem remove_edge_adjNodup (g : DirectedGraph K A) (a b : K)
    (g' : DirectedGraph K A) (r : Bool) (h : g.remove_edge a b = some (g', r))
    (hn : g.AdjNodup) : g'.AdjNodup := by
  unfold DirectedGraph.remove_edge at h
  split at h
  · obtain ⟨rfl, rfl⟩ := opt_pair_inj h
    exact hn
  · split at h
    · exact Option.noConfusion h
    · split at h
      · obtain ⟨rfl, rfl⟩ := opt_pair_inj h
        intro v s' hs'
        by_cases hv : v = a
        · subst hv
          rw [dictGet_dictSet_self] at hs'
          cases hs'
          exact setRemove_nodup _ _ (hn _ _ (by assumption))
        · rw [dictGet_dictSet_ne _ _ _ _ hv] at hs'
          exact hn v s' hs'
      · obtain ⟨rfl, rfl⟩ := opt_pair_inj h
        exact hn

end NodupPreservation

section AppLemmas

/-- `add_user` on a duplicate id: returns `false`, state unchanged. -/
theorem add_user_dup (app : SocialMediaApp) (p : Person)
    (h : dictContains app.users p.user_id = true) :
    app.add_user p = (app, false) := by
  simp [SocialMediaApp.add_user, h]

/-- `add_user` on a fresh id (fresh in both mappings): inserts into both. -/
theorem add_user_fresh (app : SocialMediaApp) (p : Person)
    (hu : dictContains app.users p.user_id = false)
    (hg : dictContains app.graph.vertices p.user_id = false) :
    app.add_user p =
      ({ graph := { vertices := dictSet app.graph.vertices p.user_id p,
                    adjacency_list := dictSet app.graph.adjacency_list p.user_id [] },
         users := dictSet app.users p.user_id p }, true) := by
  simp [SocialMediaApp.add_user, hu, DirectedGraph.add_vertex, hg]

/-- `follow_user` when either id is unknown to `users`. -/
theorem follow_user_missing (app : SocialMediaApp) (a b : String)
    (h : dictContains app.users a = false ∨ dictContains app.users b = false) :
    app.follow_user a b = some (app, false) := by
  rcases h with h | h <;> simp [SocialMediaApp.follow_user, h]

/-- `follow_user` when both ids are known: delegates to `add_edge`. -/
theorem follow_user_present (app : SocialMediaApp) (a b : String)
    (ha : dictContains app.users a = true) (hb : dictContains app.users b = true) :
    app.follow_user a b = (app.graph.add_edge a b).map
      (fun gr => ({ app with graph := gr.1 }, gr.2)) := by
  simp [SocialMediaApp.follow_user, ha, hb]

/-- A defined `follow_user` result: either the missing-id short-circuit, or a
defined `add_edge` result lifted to the facade (`users` untouched). -/
theorem follow_user_graph (app : SocialMediaApp) (a b : String)
    (app' : SocialMediaApp) (r : Bool)
    (h : app.follow_user a b = some (app', r)) :
    (app' = app ∧ r = false) ∨
    (app.graph.add_edge a b = some (app'.graph, r) ∧ app'.users = app.users) := by
  unfold SocialMediaApp.follow_user at h
  split at h
  · obtain ⟨rfl, rfl⟩ := opt_pair_inj h
    exact Or.inl ⟨rfl, rfl⟩
  · cases he : app.graph.add_edge a b with
    | none =>
      rw [he] at h
      exact Option.noConfusion h
    | some gr =>
      rw [he, Option.map_some'] at h
      obtain ⟨rfl, rfl⟩ := opt_pair_inj h
      exact Or.inr ⟨rfl, rfl⟩

/-- A defined `unfollow_user` result is a defined `remove_edge` result lifted
to the facade (`users` untouched). -/
theorem unfollow_user_graph (app : SocialMediaApp) (a b : String)
    (app' : SocialMediaApp) (r : Bool)
    (h : app.unfollow_user a b = some (app', r)) :
    app.graph.remove_edge a b = some (app'.graph, r) ∧ app'.users = app.users := by
  unfold SocialMediaApp.unfollow_user at h
  cases he : app.graph.remove_edge a b with
  | none =>
    rw [he] at h
    exact Option.noConfusion h
  | some gr =>
    rw [he, Option.map_some'] at h
    obtain ⟨rfl, rfl⟩ := opt_pair_inj h
    exact ⟨rfl, rfl⟩

/-- The graph after `add_user`: unchanged, or the result of `add_vertex`. -/
theorem add_user_graph_cases (app : SocialMediaApp) (p : Person) :
    (app.add_user p).1.graph = app.graph ∨
    (app.add_user p).1.graph = (app.graph.add_vertex p.user_id p).1 := by
  unfold SocialMediaApp.add_user
  split
  · exact Or.inl rfl
  · exact Or.inr rfl

theorem add_user_graph_inv (app : SocialMediaApp) (p : Person)
    (h : app.graph.Inv) : (app.add_user p).1.graph.Inv := by
  rcases add_user_graph_cases app p with hg | hg
  · rw [hg]; exact h
  · rw [hg]; exact add_vertex_inv _ _ _ h

theorem add_user_graph_adjKeys (app : SocialMediaApp) (p : Person)
    (hI : app.graph.Inv) (h : app.graph.AdjKeysNodup) :
    (app.add_user p).1.graph.AdjKeysNodup := by
  rcases add_user_graph_cases app p with hg | hg
  · rw [hg]; exact h
  · rw [hg]; exact add_vertex_adjKeys _ _ _ hI h

theorem add_user_graph_adjNodup (app : SocialMediaApp) (p : Person)
    (h : app.graph.AdjNodup) : (app.add_user p).1.graph.AdjNodup := by
  rcases add_user_graph_cases app p with hg | hg
  · rw [hg]; exact h
  · rw [hg]; exact add_vertex_adjNodup _ _ _ h

/-- `add_user` preserves the lock-step invariant. -/
theorem add_user_lockstep (app : SocialMediaApp) (p : Person)
    (h : app.LockStep) : (app.add_user p).1.LockStep := by
  by_cases hc : dictContains app.users p.user_id = true
  · rw [add_user_dup app p hc]
    exact h
  · rw [Bool.not_eq_true] at hc
    have hg : dictContains app.graph.vertices p.user_id = false := by
      rcases hb : dictContains app.graph.vertices p.user_id with _ | _
      · rfl
      · exact absurd ((h p.user_id).mpr hb) (by rw [hc]; exact Bool.false_ne_true)
    rw [add_user_fresh app p hc hg]
    intro id
    show dictContains (dictSet app.users p.user_id p) id = true ↔
      dictContains (dictSet app.graph.vertices p.user_id p) id = true
    rw [dictContains_dictSet, dictContains_dictSet]
    exact or_congr Iff.rfl (h id)

/-- `follow_user` preserves the lock-step invariant. -/
theorem follow_user_lockstep (app : SocialMediaApp) (a b : String)
    (app' : SocialMediaApp) (r : Bool)
    (hf : app.follow_user a b = some (app', r)) (h : app.LockStep) :
    app'.LockStep := by
  rcases follow_user_graph app a b app' r hf with ⟨rfl, -⟩ | ⟨he, hu⟩
  · exact h
  · intro id
    have hv := add_edge_vertices _ _ _ _ _ he
    show dictContains app'.users id = true ↔
      dictContains app'.graph.vertices id = true
    rw [hu, hv]
    exact h id

/-- `unfollow_user` preserves the lock-step invariant. -/
theorem unfollow_user_lockstep (app : SocialMediaApp) (a b : String)
    (app' : SocialMediaApp) (r : Bool)
    (hf : app.unfollow_user a b = some (app', r)) (h : app.LockStep) :
    app'.LockStep := by
  rcases unfollow_user_graph app a b app' r hf with ⟨he, hu⟩
  intro id
  have hv := remove_edge_vertices _ _ _ _ _ he
  show dictContains app'.users id = true ↔
    dictContains app'.graph.vertices id = true
  rw [hu, hv]
  exact h id

theorem follow_user_graph_inv (app : SocialMediaApp) (a b : String)
    (app' : SocialMediaApp) (r : Bool)
    (hf : app.follow_user a b = some (app', r)) (h : app.graph.Inv) :
    app'.graph.Inv := by
  rcases follow_user_graph app a b app' r hf with ⟨rfl, -⟩ | ⟨he, -⟩
  · exact h
  · exact add_edge_inv _ _ _ _ _ h he

theorem follow_user_graph_adjKeys (app : SocialMediaApp) (a b : String)
    (app' : SocialMediaApp) (r : Bool)
    (hf : app.follow_user a b = some (app', r)) (h : app.graph.AdjKeysNodup) :
    app'.graph.AdjKeysNodup := by
  rcases follow_user_graph app a b app' r hf with ⟨rfl, -⟩ | ⟨he, -⟩
  · exact h
  · exact add_edge_adjKeys _ _ _ _ _ he h

theorem follow_user_graph_adjNodup (app : SocialMediaApp) (a b : String)
    (app' : SocialMediaApp) (r : Bool)
    (hf : app.follow_user a b = some (app', r)) (h : app.graph.AdjNodup) :
    app'.graph.AdjNodup := by
  rcases follow_user_graph app a b app' r hf with ⟨rfl, -⟩ | ⟨he, -⟩
  · exact h
  · exact add_edge_adjNodup _ _ _ _ _ he h

/-- `list_outgoing_adjacent_vertices` on a present vertex. -/
theorem list_outgoing_present {K A : Type} [DecidableEq K]
    (g : DirectedGraph K A) (v : K) (hv : dictContains g.vertices v = true) :
    g.list_outgoing_adjacent_vertices v = dictGet g.adjacency_list v := by
  simp [DirectedGraph.list_outgoing_adjacent_vertices, hv]

/-- `list_outgoing_adjacent_vertices` on an absent vertex. -/
theorem list_outgoing_absent {K A : Type} [DecidableEq K]
    (g : DirectedGraph K A) (v : K) (hv : dictContains g.vertices v = false) :
    g.list_outgoing_adjacent_vertices v = some [] := by
  simp [DirectedGraph.list_outgoing_adjacent_vertices, hv]

/-- `list_incoming_adjacent_vertices` on an absent vertex. -/
theorem list_incoming_absent {K A : Type} [DecidableEq K]
    (g : DirectedGraph K A) (v : K) (hv : dictContains g.vertices v = false) :
    g.list_incoming_adjacent_vertices v = [] := by
  simp [DirectedGraph.list_incoming_adjacent_vertices, hv]

theorem dictGet_eq_none_of_not_contains {K V : Type} [DecidableEq K]
    (d : List (K × V)) (k : K) (h : dictContains d k = false) :
    dictGet d k = none := by
  rcases hg : dictGet d k with _ | v
  · rfl
  · rw [dictContains, hg] at h
    exact absurd h (by simp)

/-- `unfollow_user` written as the `remove_edge` delegation it is. -/
theorem unfollow_user_eq (app : SocialMediaApp) (a b : String) :
    app.unfollow_user a b = (app.graph.remove_edge a b).map
      (fun gr => ({ app with graph := gr.1 }, gr.2)) := rfl

/-- The empty facade state satisfies every invariant. -/
theorem emptyApp_invariants :
    SocialMediaApp.emptyApp.LockStep ∧ SocialMediaApp.emptyApp.graph.Inv ∧
    SocialMediaApp.emptyApp.graph.AdjKeysNodup ∧
    SocialMediaApp.emptyApp.graph.AdjNodup :=
  ⟨fun _ => Iff.rfl,
   ⟨fun _ => Iff.rfl, fun _ _ hs => nomatch hs⟩,
   List.nodup_nil,
   fun _ _ hs => nomatch hs⟩

end AppLemmas

section MoreHelpers

/-- Under the invariant, `list_outgoing_adjacent_vertices` is always
defined (the unguarded subscript cannot fail). -/
theorem list_outgoing_isSome {K A : Type} [DecidableEq K]
    (g : DirectedGraph K A) (hI : g.Inv) (id : K) :
    (g.list_outgoing_adjacent_vertices id).isSome = true := by
  by_cases hv : dictContains g.vertices id = true
  · obtain ⟨s, hs⟩ := Inv.adj_some g hI id hv
    rw [list_outgoing_present g id hv, hs]
    rfl
  · rw [Bool.not_eq_true] at hv
    rw [list_outgoing_absent g id hv]
    rfl

end MoreHelpers

section SampleData

/-- A concrete public profile, for instantiating theorems. -/
def alicePerson : Person :=
  { user_id := "alice", name := "Alice", gender := "F", biography := "bio",
    privacy := Privacy.PUBLIC, age := some 28, location := "NY" }

/-- A second profile with the same id, different payload. -/
def alicePersonAlt : Person :=
  { user_id := "alice", name := "Alice II", gender := "F", biography := "bio2",
    privacy := Privacy.PRIVATE, age := some 29, location := "LA" }

/-- A concrete private profile. -/
def bobPerson : Person :=
  { user_id := "bob", name := "Bob", gender := "M", biography := "dev",
    privacy := Privacy.PRIVATE, age := none, location := "SF" }

/-- The facade after adding the two sample users. -/
def appAB : SocialMediaApp :=
  ((SocialMediaApp.emptyApp.add_user alicePerson).1.add_user bobPerson).1

theorem appAB_lockstep : appAB.LockStep :=
  add_user_lockstep _ _ (add_user_lockstep _ _ emptyApp_invariants.1)

theorem appAB_inv : appAB.graph.Inv :=
  add_user_graph_inv _ _ (add_user_graph_inv _ _ emptyApp_invariants.2.1)

theorem appAB_adjKeys : appAB.graph.AdjKeysNodup :=
  add_user_graph_adjKeys _ _
    (add_user_graph_inv _ _ emptyApp_invariants.2.1)
    (add_user_graph_adjKeys _ _ emptyApp_invariants.2.1
      emptyApp_invariants.2.2.1)

theorem appAB_adjNodup : appAB.graph.AdjNodup :=
  add_user_graph_adjNodup _ _
    (add_user_graph_adjNodup _ _ emptyApp_invariants.2.2.2)

/-- The sample facade after `follow_user "alice" "bob"`. -/
def appABfollowed : SocialMediaApp :=
  ((appAB.follow_user "alice" "bob").getD (appAB, false)).1

theorem appAB_follow_eq :
    appAB.follow_user "alice" "bob" = some (appABfollowed, true) := by
  decide

theorem appABfollowed_adjNodup : appABfollowed.graph.AdjNodup :=
  follow_user_graph_adjNodup appAB "alice" "bob" appABfollowed true
    appAB_follow_eq appAB_adjNodup

/-- The sample facade after following and then unfollowing. -/
def appABunfollowed : SocialMediaApp :=
  ((appABfollowed.unfollow_user "alice" "bob").getD (appABfollowed, false)).1

end SampleData

section Noninterference

/-- Two profiles that agree on every field except `privacy`. -/
def Person.sameExceptPrivacy (p q : Person) : Prop :=
  p.user_id = q.user_id ∧ p.name = q.name ∧ p.gender = q.gender ∧
  p.biography = q.biography ∧ p.age = q.age ∧ p.location = q.location

/-- Dictionary entries with equal keys and privacy-equivalent profiles. -/
def entrySim (x y : String × Person) : Prop :=
  x.1 = y.1 ∧ Person.sameExceptPrivacy x.2 y.2

/-- Graphs that differ at most in the privacy fields of vertex payloads. -/
def graphSim (g₁ g₂ : DirectedGraph String Person) : Prop :=
  g₁.adjacency_list = g₂.adjacency_list ∧
  List.Forall₂ entrySim g₁.vertices g₂.vertices

/-- Facade states that differ at most in privacy fields of profiles. -/
def appSim (a₁ a₂ : SocialMediaApp) : Prop :=
  graphSim a₁.graph a₂.graph ∧ List.Forall₂ entrySim a₁.users a₂.users

/-- Privacy-equivalence of optional lookup results. -/
def personOptSim : Option Person → Option Person → Prop
  | none, none => True
  | some p, some q => Person.sameExceptPrivacy p q
  | _, _ => False

theorem sim_dictContains {d₁ d₂ : List (String × Person)}
    (h : List.Forall₂ entrySim d₁ d₂) (k : String) :
    dictContains d₁ k = dictContains d₂ k := by
  induction h with
  | nil => rfl
  | @cons x y l₁ l₂ hxy htl ih =>
    obtain ⟨k₁, p⟩ := x
    obtain ⟨k₂, q⟩ := y
    obtain ⟨hk, -⟩ := hxy
    cases hk
    by_cases hkk : k₁ = k
    · simp [dictContains, dictGet, hkk]
    · simpa [dictContains, dictGet, hkk] using ih

theorem sim_dictGet {d₁ d₂ : List (String × Person)}
    (h : List.Forall₂ entrySim d₁ d₂) (k : String) :
    personOptSim (dictGet d₁ k) (dictGet d₂ k) := by
  induction h with
  | nil => trivial
  | @cons x y l₁ l₂ hxy htl ih =>
    obtain ⟨k₁, p⟩ := x
    obtain ⟨k₂, q⟩ := y
    obtain ⟨hk, hpq⟩ := hxy
    cases hk
    by_cases hkk : k₁ = k
    · simpa [dictGet, hkk, personOptSim] using hpq
    · simpa [dictGet, hkk] using ih

theorem sim_dictSet {d₁ d₂ : List (String × Person)}
    (h : List.Forall₂ entrySim d₁ d₂) (k : String) {p q : Person}
    (hpq : Person.sameExceptPrivacy p q) :
    List.Forall₂ entrySim (dictSet d₁ k p) (dictSet d₂ k q) := by
  induction h with
  | nil => exact List.Forall₂.cons ⟨rfl, hpq⟩ List.Forall₂.nil
  | @cons x y l₁ l₂ hxy htl ih =>
    obtain ⟨k₁, p'⟩ := x
    obtain ⟨k₂, q'⟩ := y
    obtain ⟨hk, hpq'⟩ := hxy
    cases hk
    by_cases hkk : k₁ = k
    · simp only [dictSet, if_pos hkk]
      exact List.Forall₂.cons ⟨rfl, hpq⟩ htl
    · simp only [dictSet, if_neg hkk]
      exact List.Forall₂.cons ⟨rfl, hpq'⟩ ih

theorem sim_values {d₁ d₂ : List (String × Person)}
    (h : List.Forall₂ entrySim d₁ d₂) :
    (d₁.map Prod.snd).map Person.user_id =
      (d₂.map Prod.snd).map Person.user_id := by
  induction h with
  | nil => rfl
  | @cons x y l₁ l₂ hxy htl ih =>
    simp only [List.map_cons, ih, List.cons.injEq, and_true]
    exact hxy.2.1

theorem sim_filterMap {d₁ d₂ : List (String × Person)}
    (h : List.Forall₂ entrySim d₁ d₂) (ids : List String) :
    (ids.filterMap (fun uid => dictGet d₁ uid)).map Person.user_id =
      (ids.filterMap (fun uid => dictGet d₂ uid)).map Person.user_id := by
  induction ids with
  | nil => rfl
  | cons uid rest ih =>
    have hsim := sim_dictGet h uid
    cases hg₁ : dictGet d₁ uid with
    | none =>
      cases hg₂ : dictGet d₂ uid with
      | none => simp [List.filterMap_cons, hg₁, hg₂, ih]
      | some q =>
        rw [hg₁, hg₂] at hsim
        exact absurd hsim (by simp [personOptSim])
    | some p =>
      cases hg₂ : dictGet d₂ uid with
      | none =>
        rw [hg₁, hg₂] at hsim
        exact absurd hsim (by simp [personOptSim])
      | some q =>
        rw [hg₁, hg₂] at hsim
        simp only [List.filterMap_cons, hg₁, hg₂, List.map_cons, ih,
          List.cons.injEq, and_true]
        exact hsim.1

/-- Privacy-equivalence of graph operation results. -/
def graphResSim : Option (DirectedGraph String Person × Bool) →
    Option (DirectedGraph String Person × Bool) → Prop
  | none, none => True
  | some r₁, some r₂ => graphSim r₁.1 r₂.1 ∧ r₁.2 = r₂.2
  | _, _ => False

theorem add_edge_sim {g₁ g₂ : DirectedGraph String Person}
    (h : graphSim g₁ g₂) (a b : String) :
    graphResSim (g₁.add_edge a b) (g₂.add_edge a b) := by
  obtain ⟨hadj, hverts⟩ := h
  have hca := sim_dictContains hverts a
  have hcb := sim_dictContains hverts b
  unfold DirectedGraph.add_edge
  rw [hadj, hca, hcb]
  by_cases hc : (!dictContains g₂.vertices a || !dictContains g₂.vertices b) = true
  · rw [if_pos hc, if_pos hc]
    exact ⟨⟨hadj, hverts⟩, rfl⟩
  · rw [if_neg hc, if_neg hc]
    cases hget : dictGet g₂.adjacency_list a with
    | none => trivial
    | some s =>
      dsimp only
      by_cases hmem : b ∈ s
      · rw [if_pos hmem, if_pos hmem]
        exact ⟨⟨hadj, hverts⟩, rfl⟩
      · rw [if_neg hmem, if_neg hmem]
        exact ⟨⟨rfl, hverts⟩, rfl⟩

theorem remove_edge_sim {g₁ g₂ : DirectedGraph String Person}
    (h : graphSim g₁ g₂) (a b : String) :
    graphResSim (g₁.remove_edge a b) (g₂.remove_edge a b) := by
  obtain ⟨hadj, hverts⟩ := h
  have hca := sim_dictContains hverts a
  have hcb := sim_dictContains hverts b
  unfold DirectedGraph.remove_edge
  rw [hadj, hca, hcb]
  by_cases hc : (!dictContains g₂.vertices a || !dictContains g₂.vertices b) = true
  · rw [if_pos hc, if_pos hc]
    exact ⟨⟨hadj, hverts⟩, rfl⟩
  · rw [if_neg hc, if_neg hc]
    cases hget : dictGet g₂.adjacency_list a with
    | none => trivial
    | some s =>
      dsimp only
      by_cases hmem : b ∈ s
      · rw [if_pos hmem, if_pos hmem]
        exact ⟨⟨rfl, hverts⟩, rfl⟩
      · rw [if_neg hmem, if_neg hmem]
        exact ⟨⟨hadj, hverts⟩, rfl⟩

/-- Privacy-equivalence of facade operation results. -/
def appResSim : Option (SocialMediaApp × Bool) →
    Option (SocialMediaApp × Bool) → Prop
  | none, none => True
  | some r₁, some r₂ => appSim r₁.1 r₂.1 ∧ r₁.2 = r₂.2
  | _, _ => False

theorem add_user_sim {a₁ a₂ : SocialMediaApp} (h : appSim a₁ a₂)
    {p q : Person} (hpq : Person.sameExceptPrivacy p q) :
    appSim (a₁.add_user p).1 (a₂.add_user q).1 ∧
      (a₁.add_user p).2 = (a₂.add_user q).2 := by
  obtain ⟨⟨hadj, hverts⟩, husers⟩ := h
  have hcu : dictContains a₁.users p.user_id =
      dictContains a₂.users q.user_id := by
    rw [hpq.1]
    exact sim_dictContains husers q.user_id
  have hcv : dictContains a₁.graph.vertices p.user_id =
      dictContains a₂.graph.vertices q.user_id := by
    rw [hpq.1]
    exact sim_dictContains hverts q.user_id
  unfold SocialMediaApp.add_user DirectedGraph.add_vertex
  rw [hcu, hcv, hadj, hpq.1]
  by_cases hc : dictContains a₂.users q.user_id = true
  · rw [if_pos hc, if_pos hc]
    exact ⟨⟨⟨hadj, hverts⟩, husers⟩, rfl⟩
  · rw [if_neg hc, if_neg hc]
    by_cases hcv₂ : dictContains a₂.graph.vertices q.user_id = true
    · rw [if_pos hcv₂, if_pos hcv₂]
      exact ⟨⟨⟨hadj, hverts⟩, sim_dictSet husers q.user_id hpq⟩, rfl⟩
    · rw [if_neg hcv₂, if_neg hcv₂]
      exact ⟨⟨⟨rfl, sim_dictSet hverts q.user_id hpq⟩,
        sim_dictSet husers q.user_id hpq⟩, rfl⟩

theorem follow_user_sim {a₁ a₂ : SocialMediaApp} (h : appSim a₁ a₂)
    (a b : String) :
    appResSim (a₁.follow_user a b) (a₂.follow_user a b) := by
  have hca := sim_dictContains h.2 a
  have hcb := sim_dictContains h.2 b
  unfold SocialMediaApp.follow_user
  rw [hca, hcb]
  by_cases hc : (!dictContains a₂.users a || !dictContains a₂.users b) = true
  · rw [if_pos hc, if_pos hc]
    exact ⟨h, rfl⟩
  · rw [if_neg hc, if_neg hc]
    have hadd := add_edge_sim h.1 a b
    cases he₁ : a₁.graph.add_edge a b with
    | none =>
      cases he₂ : a₂.graph.add_edge a b with
      | none => trivial
      | some r₂ =>
        rw [he₁, he₂] at hadd
        exact absurd hadd (by simp [graphResSim])
    | some r₁ =>
      cases he₂ : a₂.graph.add_edge a b with
      | none =>
        rw [he₁, he₂] at hadd
        exact absurd hadd (by simp [graphResSim])
      | some r₂ =>
        rw [he₁, he₂] at hadd
        rw [Option.map_some', Option.map_some']
        exact ⟨⟨hadd.1, h.2⟩, hadd.2⟩

theorem unfollow_user_sim {a₁ a₂ : SocialMediaApp} (h : appSim a₁ a₂)
    (a b : String) :
    appResSim (a₁.unfollow_user a b) (a₂.unfollow_user a b) := by
  unfold SocialMediaApp.unfollow_user
  have hrem := remove_edge_sim h.1 a b
  cases he₁ : a₁.graph.remove_edge a b with
  | none =>
    cases he₂ : a₂.graph.remove_edge a b with
    | none => trivial
    | some r₂ =>
      rw [he₁, he₂] at hrem
      exact absurd hrem (by simp [graphResSim])
  | some r₁ =>
    cases he₂ : a₂.graph.remove_edge a b with
    | none =>
      rw [he₁, he₂] at hrem
      exact absurd hrem (by simp [graphResSim])
    | some r₂ =>
      rw [he₁, he₂] at hrem
      rw [Option.map_some', Option.map_some']
      exact ⟨⟨hrem.1, h.2⟩, hrem.2⟩

/-- The facade operations an external caller can drive, as run by the
excluded CLI collaborator. -/
inductive Op where
  | addUser (p : Person)
  | follow (a b : String)
  | unfollow (a b : String)

/-- Operation sequences that are identical except that the profiles handed
to `addUser` may differ in their privacy fields. -/
def OpSim : Op → Op → Prop
  | .addUser p, .addUser q => Person.sameExceptPrivacy p q
  | .follow a b, .follow a' b' => a = a' ∧ b = b'
  | .unfollow a b, .unfollow a' b' => a = a' ∧ b = b'
  | _, _ => False

/-- One facade operation, with its boolean result. -/
def SocialMediaApp.runOp (app : SocialMediaApp) :
    Op → Option (SocialMediaApp × Bool)
  | .addUser p => some (app.add_user p)
  | .follow a b => app.follow_user a b
  | .unfollow a b => app.unfollow_user a b

/-- A whole operation sequence, collecting the boolean results. -/
def SocialMediaApp.run (app : SocialMediaApp) :
    List Op → Option (SocialMediaApp × List Bool)
  | [] => some (app, [])
  | op :: ops =>
    match app.runOp op with
    | none => none
    | some ar =>
      match ar.1.run ops with
      | none => none
      | some frs => some (frs.1, ar.2 :: frs.2)

/-- Privacy-equivalence of run results. -/
def runResSim : Option (SocialMediaApp × List Bool) →
    Option (SocialMediaApp × List Bool) → Prop
  | none, none => True
  | some r₁, some r₂ => r₁.2 = r₂.2 ∧ appSim r₁.1 r₂.1
  | _, _ => False

theorem runOp_sim {a₁ a₂ : SocialMediaApp} (h : appSim a₁ a₂)
    {o₁ o₂ : Op} (ho : OpSim o₁ o₂) :
    appResSim (a₁.runOp o₁) (a₂.runOp o₂) := by
  cases o₁ with
  | addUser p =>
    cases o₂ with
    | addUser q =>
      have := add_user_sim h (p := p) (q := q) ho
      exact ⟨this.1, this.2⟩
    | follow a b => exact ho.elim
    | unfollow a b => exact ho.elim
  | follow a b =>
    cases o₂ with
    | addUser q => exact ho.elim
    | follow a' b' =>
      obtain ⟨rfl, rfl⟩ := ho
      exact follow_user_sim h a b
    | unfollow a' b' => exact ho.elim
  | unfollow a b =>
    cases o₂ with
    | addUser q => exact ho.elim
    | follow a' b' => exact ho.elim
    | unfollow a' b' =>
      obtain ⟨rfl, rfl⟩ := ho
      exact unfollow_user_sim h a b

theorem run_sim {ops₁ ops₂ : List Op} (hops : List.Forall₂ OpSim ops₁ ops₂) :
    ∀ {a₁ a₂ : SocialMediaApp}, appSim a₁ a₂ →
      runResSim (a₁.run ops₁) (a₂.run ops₂) := by
  induction hops with
  | nil => exact fun h => ⟨rfl, h⟩
  | @cons o₁ o₂ t₁ t₂ ho htl ih =>
    intro a₁ a₂ h
    have hstep := runOp_sim h ho
    unfold SocialMediaApp.run
    cases h₁ : a₁.runOp o₁ with
    | none =>
      cases h₂ : a₂.runOp o₂ with
      | none => trivial
      | some r₂ =>
        rw [h₁, h₂] at hstep
        exact absurd hstep (by simp [appResSim])
    | some r₁ =>
      cases h₂ : a₂.runOp o₂ with
      | none =>
        rw [h₁, h₂] at hstep
        exact absurd hstep (by simp [appResSim])
      | some r₂ =>
        rw [h₁, h₂] at hstep
        obtain ⟨hsim', hr⟩ := hstep
        have htail := ih hsim'
        dsimp only
        cases hrun₁ : r₁.1.run t₁ with
        | none =>
          cases hrun₂ : r₂.1.run t₂ with
          | none => trivial
          | some f₂ =>
            rw [hrun₁, hrun₂] at htail
            exact absurd htail (by simp [runResSim])
        | some f₁ =>
          cases hrun₂ : r₂.1.run t₂ with
          | none =>
            rw [hrun₁, hrun₂] at htail
            exact absurd htail (by simp [runResSim])
          | some f₂ =>
            rw [hrun₁, hrun₂] at htail
            dsimp only
            exact ⟨by rw [hr, htail.1], htail.2⟩

theorem sim_list_outgoing {g₁ g₂ : DirectedGraph String Person}
    (h : graphSim g₁ g₂) (u : String) :
    g₁.list_outgoing_adjacent_vertices u =
      g₂.list_outgoing_adjacent_vertices u := by
  unfold DirectedGraph.list_outgoing_adjacent_vertices
  rw [sim_dictContains h.2 u, h.1]

theorem sim_list_incoming {g₁ g₂ : DirectedGraph String Person}
    (h : graphSim g₁ g₂) (u : String) :
    g₁.list_incoming_adjacent_vertices u =
      g₂.list_incoming_adjacent_vertices u := by
  unfold DirectedGraph.list_incoming_adjacent_vertices
  rw [sim_dictContains h.2 u, h.1]

theorem sim_get_following {a₁ a₂ : SocialMediaApp} (h : appSim a₁ a₂)
    (u : String) :
    (a₁.get_following u).map (List.map Person.user_id) =
      (a₂.get_following u).map (List.map Person.user_id) := by
  unfold SocialMediaApp.get_following
  rw [sim_list_outgoing h.1 u]
  cases a₂.graph.list_outgoing_adjacent_vertices u with
  | none => rfl
  | some ids =>
    rw [Option.map_some', Option.map_some', Option.map_some', Option.map_some']
    rw [sim_filterMap h.2 ids]

theorem sim_get_followers {a₁ a₂ : SocialMediaApp} (h : appSim a₁ a₂)
    (u : String) :
    (a₁.get_followers u).map Person.user_id =
      (a₂.get_followers u).map Person.user_id := by
  unfold SocialMediaApp.get_followers
  rw [sim_list_incoming h.1 u]
  exact sim_filterMap h.2 _

theorem sim_get_all_users {a₁ a₂ : SocialMediaApp} (h : appSim a₁ a₂) :
    a₁.get_all_users.map Person.user_id =
      a₂.get_all_users.map Person.user_id :=
  sim_values h.2

end Noninterference

section Claims

/-- C2: every `DirectedGraph` mutating operation preserves the invariant
that the adjacency key set equals the vertex key set (vertices get an empty
adjacency entry at add time) and that every id inside any adjacency set
is a vertex key; `add_edge` with a missing endpoint changes nothing and
returns `false`. -/
theorem spec_claim_C2 {K A : Type} [DecidableEq K] (g : DirectedGraph K A)
    (hInv : g.Inv) :
    (∀ (id : K) (a : A), (g.add_vertex id a).1.Inv) ∧
    (∀ (a b : K) (g' : DirectedGraph K A) (r : Bool),
      g.add_edge a b = some (g', r) → g'.Inv) ∧
    (∀ (a b : K) (g' : DirectedGraph K A) (r : Bool),
      g.remove_edge a b = some (g', r) → g'.Inv) ∧
    (∀ a b : K,
      dictContains g.vertices a = false ∨ dictContains g.vertices b = false →
      g.add_edge a b = some (g, false)) :=
  ⟨fun id a => add_vertex_inv g id a hInv,
   fun a b g' r h => add_edge_inv g a b g' r hInv h,
   fun a b g' r h => remove_edge_inv g a b g' r hInv h,
   fun a b h => add_edge_missing g a b h⟩

theorem spec_claim_C2_witness :
    (∀ (id : String) (a : Person), (appAB.graph.add_vertex id a).1.Inv) ∧
    (∀ (a b : String) (g' : DirectedGraph String Person) (r : Bool),
      appAB.graph.add_edge a b = some (g', r) → g'.Inv) ∧
    (∀ (a b : String) (g' : DirectedGraph String Person) (r : Bool),
      appAB.graph.remove_edge a b = some (g', r) → g'.Inv) ∧
    (∀ a b : String,
      dictContains appAB.graph.vertices a = false ∨
        dictContains appAB.graph.vertices b = false →
      appAB.graph.add_edge a b = some (appAB.graph, false)) :=
  spec_claim_C2 appAB.graph appAB_inv

/-- C3: every facade operation preserves the lock-step invariant between
`users` and the graph's vertex set; `add_user` either inserts the profile
into both mappings (returning `true`) or changes neither (returning `false`
on a duplicate id). -/
theorem spec_claim_C3 (app : SocialMediaApp) (hL : app.LockStep) :
    (∀ p : Person, (app.add_user p).1.LockStep) ∧
    (∀ (a b : String) (app' : SocialMediaApp) (r : Bool),
      app.follow_user a b = some (app', r) → app'.LockStep) ∧
    (∀ (a b : String) (app' : SocialMediaApp) (r : Bool),
      app.unfollow_user a b = some (app', r) → app'.LockStep) ∧
    (∀ p : Person, dictContains app.users p.user_id = false →
      (app.add_user p).2 = true ∧
      (app.add_user p).1.get_user p.user_id = some p ∧
      (app.add_user p).1.graph.get_vertex_data p.user_id = some p) ∧
    (∀ p : Person, dictContains app.users p.user_id = true →
      app.add_user p = (app, false)) := by
  refine ⟨fun p => add_user_lockstep app p hL,
    fun a b app' r h => follow_user_lockstep app a b app' r h hL,
    fun a b app' r h => unfollow_user_lockstep app a b app' r h hL,
    fun p hp => ?_,
    fun p hp => add_user_dup app p hp⟩
  have hg : dictContains app.graph.vertices p.user_id = false := by
    rcases hb : dictContains app.graph.vertices p.user_id with _ | _
    · rfl
    · exact absurd ((hL p.user_id).mpr hb) (by rw [hp]; exact Bool.false_ne_true)
  rw [add_user_fresh app p hp hg]
  refine ⟨rfl, ?_, ?_⟩
  · show dictGet (dictSet app.users p.user_id p) p.user_id = some p
    exact dictGet_dictSet_self _ _ _
  · show dictGet (dictSet app.graph.vertices p.user_id p) p.user_id = some p
    exact dictGet_dictSet_self _ _ _

theorem spec_claim_C3_witness :
    (∀ p : Person, (appAB.add_user p).1.LockStep) ∧
    (∀ (a b : String) (app' : SocialMediaApp) (r : Bool),
      appAB.follow_user a b = some (app', r) → app'.LockStep) ∧
    (∀ (a b : String) (app' : SocialMediaApp) (r : Bool),
      appAB.unfollow_user a b = some (app', r) → app'.LockStep) ∧
    (∀ p : Person, dictContains appAB.users p.user_id = false →
      (appAB.add_user p).2 = true ∧
      (appAB.add_user p).1.get_user p.user_id = some p ∧
      (appAB.add_user p).1.graph.get_vertex_data p.user_id = some p) ∧
    (∀ p : Person, dictContains appAB.users p.user_id = true →
      appAB.add_user p = (appAB, false)) :=
  spec_claim_C3 appAB appAB_lockstep

/-- C4: adding the same id twice (to a graph where it is fresh, resp. to a
lock-step facade where it is fresh) returns `true` then `false`, and the
payload/profile stored after the second call is the one from the first
call. -/
theorem spec_claim_C4 {K A : Type} [DecidableEq K]
    (g : DirectedGraph K A) (id : K) (d₁ d₂ : A)
    (hg : g.vertex_exists id = false)
    (app : SocialMediaApp) (p₁ p₂ : Person)
    (hL : app.LockStep) (hid : p₂.user_id = p₁.user_id)
    (hu : dictContains app.users p₁.user_id = false) :
    ((g.add_vertex id d₁).2 = true ∧
     ((g.add_vertex id d₁).1.add_vertex id d₂).2 = false ∧
     ((g.add_vertex id d₁).1.add_vertex id d₂).1.get_vertex_data id = some d₁) ∧
    ((app.add_user p₁).2 = true ∧
     ((app.add_user p₁).1.add_user p₂).2 = false ∧
     ((app.add_user p₁).1.add_user p₂).1.get_user p₁.user_id = some p₁) := by
  constructor
  · have hgc : dictContains g.vertices id = false := hg
    have h1 : g.add_vertex id d₁ =
        ({ vertices := dictSet g.vertices id d₁,
           adjacency_list := dictSet g.adjacency_list id [] }, true) := by
      simp [DirectedGraph.add_vertex, hgc]
    have hc1 : dictContains (dictSet g.vertices id d₁) id = true := by
      rw [dictContains, dictGet_dictSet_self]
      rfl
    rw [h1]
    refine ⟨rfl, ?_, ?_⟩
    · simp [DirectedGraph.add_vertex, hc1]
    · simp [DirectedGraph.add_vertex, hc1, DirectedGraph.get_vertex_data,
        dictGet_dictSet_self]
  · have hgv : dictContains app.graph.vertices p₁.user_id = false := by
      rcases hb : dictContains app.graph.vertices p₁.user_id with _ | _
      · rfl
      · exact absurd ((hL p₁.user_id).mpr hb) (by rw [hu]; exact Bool.false_ne_true)
    rw [add_user_fresh app p₁ hu hgv]
    have hc2 : dictContains (dictSet app.users p₁.user_id p₁) p₂.user_id = true := by
      rw [hid, dictContains, dictGet_dictSet_self]
      rfl
    refine ⟨rfl, ?_, ?_⟩
    · rw [add_user_dup _ p₂ hc2]
    · rw [add_user_dup _ p₂ hc2]
      show dictGet (dictSet app.users p₁.user_id p₁) p₁.user_id = some p₁
      exact dictGet_dictSet_self _ _ _

theorem spec_claim_C4_witness :
    (((DirectedGraph.emptyGraph : DirectedGraph String Nat).add_vertex "x" 1).2 = true ∧
     (((DirectedGraph.emptyGraph : DirectedGraph String Nat).add_vertex "x" 1).1.add_vertex "x" 2).2 = false ∧
     (((DirectedGraph.emptyGraph : DirectedGraph String Nat).add_vertex "x" 1).1.add_vertex "x" 2).1.get_vertex_data "x" = some 1) ∧
    ((SocialMediaApp.emptyApp.add_user alicePerson).2 = true ∧
     ((SocialMediaApp.emptyApp.add_user alicePerson).1.add_user alicePersonAlt).2 = false ∧
     ((SocialMediaApp.emptyApp.add_user alicePerson).1.add_user alicePersonAlt).1.get_user alicePerson.user_id = some alicePerson) :=
  spec_claim_C4 DirectedGraph.emptyGraph "x" 1 2 rfl
    SocialMediaApp.emptyApp alicePerson alicePersonAlt
    emptyApp_invariants.1 rfl rfl

/-- C6: a profile added through `add_user` is reproduced unabridged by
`get_user` followed by `get_full_info`, with the privacy field rendered as
its lowercase tag, regardless of visibility. -/
theorem spec_claim_C6 (app : SocialMediaApp) (p : Person)
    (h : (app.add_user p).2 = true) :
    ∃ q : Person, (app.add_user p).1.get_user p.user_id = some q ∧
      q.get_full_info.user_id = p.user_id ∧
      q.get_full_info.name = p.name ∧
      q.get_full_info.gender = p.gender ∧
      q.get_full_info.biography = p.biography ∧
      q.get_full_info.age = p.age ∧
      q.get_full_info.location = p.location ∧
      q.get_full_info.privacy =
        (if p.privacy = Privacy.PUBLIC then "public" else "private") := by
  by_cases hc : dictContains app.users p.user_id = true
  · rw [add_user_dup app p hc] at h
    exact absurd h (by simp)
  · rw [Bool.not_eq_true] at hc
    have h1 : (app.add_user p).1.users = dictSet app.users p.user_id p := by
      simp [SocialMediaApp.add_user, hc]
    refine ⟨p, ?_, rfl, rfl, rfl, rfl, rfl, rfl, ?_⟩
    · show dictGet (app.add_user p).1.users p.user_id = some p
      rw [h1]
      exact dictGet_dictSet_self _ _ _
    · have hv : p.get_full_info.privacy = p.privacy.value := rfl
      rw [hv]
      rcases p.privacy with _ | _
      · rfl
      · rfl

theorem spec_claim_C6_witness :
    ((SocialMediaApp.emptyApp.add_user bobPerson).2 = true) ∧
    (∃ q : Person,
      (SocialMediaApp.emptyApp.add_user bobPerson).1.get_user bobPerson.user_id = some q ∧
      q.get_full_info.user_id = bobPerson.user_id ∧
      q.get_full_info.name = bobPerson.name ∧
      q.get_full_info.gender = bobPerson.gender ∧
      q.get_full_info.biography = bobPerson.biography ∧
      q.get_full_info.age = bobPerson.age ∧
      q.get_full_info.location = bobPerson.location ∧
      q.get_full_info.privacy =
        (if bobPerson.privacy = Privacy.PUBLIC then "public" else "private")) :=
  ⟨by decide, spec_claim_C6 SocialMediaApp.emptyApp bobPerson (by decide)⟩

/-- C7: `unfollow_user` when no `(a, b)` edge exists — including when either
id is unknown — returns `false` and leaves the facade state unchanged. -/
theorem spec_claim_C7 (app : SocialMediaApp) (a b : String)
    (hI : app.graph.Inv) (hno : ¬ app.graph.hasEdge a b) :
    app.unfollow_user a b = some (app, false) := by
  rw [unfollow_user_eq]
  by_cases ha : dictContains app.graph.vertices a = true
  · by_cases hb : dictContains app.graph.vertices b = true
    · obtain ⟨s, hs⟩ := Inv.adj_some app.graph hI a ha
      have hmem : b ∉ s := fun hm => hno ⟨s, hs, hm⟩
      rw [remove_edge_found app.graph a b s ha hb hs, if_neg hmem]
      rfl
    · rw [Bool.not_eq_true] at hb
      rw [remove_edge_missing app.graph a b (Or.inr hb)]
      rfl
  · rw [Bool.not_eq_true] at ha
    rw [remove_edge_missing app.graph a b (Or.inl ha)]
    rfl

theorem spec_claim_C7_witness :
    appAB.unfollow_user "alice" "bob" = some (appAB, false) :=
  spec_claim_C7 appAB "alice" "bob" appAB_inv
    (by
      rintro ⟨s, hs, hm⟩
      have hget : dictGet appAB.graph.adjacency_list "alice" = some [] := by
        decide
      rw [hget] at hs
      rcases Option.some.inj hs with rfl
      exact absurd hm (List.not_mem_nil _))

/-- C8: a self-follow on a present id with no existing self-loop succeeds
and creates the edge — neither the facade nor the graph rejects it. -/
theorem spec_claim_C8 (app : SocialMediaApp) (a : String)
    (hL : app.LockStep) (hI : app.graph.Inv)
    (ha : dictContains app.users a = true)
    (hno : ¬ app.graph.hasEdge a a) :
    ∃ app' : SocialMediaApp, app.follow_user a a = some (app', true) ∧
      app'.graph.hasEdge a a := by
  have hav : dictContains app.graph.vertices a = true := (hL a).mp ha
  obtain ⟨s, hs⟩ := Inv.adj_some app.graph hI a hav
  have hmem : a ∉ s := fun hm => hno ⟨s, hs, hm⟩
  rw [follow_user_present app a a ha ha,
    add_edge_found app.graph a a s hav hav hs, if_neg hmem]
  exact ⟨_, rfl,
    ⟨setAdd s a, dictGet_dictSet_self _ _ _,
      (mem_setAdd s a a).mpr (Or.inr rfl)⟩⟩

theorem spec_claim_C8_witness :
    ∃ app' : SocialMediaApp,
      appAB.follow_user "alice" "alice" = some (app', true) ∧
      app'.graph.hasEdge "alice" "alice" :=
  spec_claim_C8 appAB "alice" appAB_lockstep appAB_inv (by decide)
    (by
      rintro ⟨s, hs, hm⟩
      have hget : dictGet appAB.graph.adjacency_list "alice" = some [] := by
        decide
      rw [hget] at hs
      rcases Option.some.inj hs with rfl
      exact absurd hm (List.not_mem_nil _))

/-- C1: after a successful `follow_user a b` on ids present in the facade,
`b` is among the outgoing adjacent vertices of `a` and `a` among the
incoming adjacent vertices of `b`; a subsequent `unfollow_user a b`
succeeds and removes both memberships. -/
theorem spec_claim_C1 (app : SocialMediaApp) (a b : String)
    (hL : app.LockStep) (hI : app.graph.Inv)
    (hK : app.graph.AdjKeysNodup) (hN : app.graph.AdjNodup)
    (ha : dictContains app.users a = true)
    (hb : dictContains app.users b = true)
    (app' : SocialMediaApp)
    (h : app.follow_user a b = some (app', true)) :
    (∃ l, app'.graph.list_outgoing_adjacent_vertices a = some l ∧ b ∈ l) ∧
    a ∈ app'.graph.list_incoming_adjacent_vertices b ∧
    (∃ app'' : SocialMediaApp,
      app'.unfollow_user a b = some (app'', true) ∧
      (∃ l, app''.graph.list_outgoing_adjacent_vertices a = some l ∧ b ∉ l) ∧
      a ∉ app''.graph.list_incoming_adjacent_vertices b) := by
  have hav : dictContains app.graph.vertices a = true := (hL a).mp ha
  have hbv : dictContains app.graph.vertices b = true := (hL b).mp hb
  obtain ⟨s, hs⟩ := Inv.adj_some app.graph hI a hav
  rw [follow_user_present app a b ha hb,
    add_edge_found app.graph a b s hav hbv hs] at h
  by_cases hmem : b ∈ s
  · rw [if_pos hmem, Option.map_some'] at h
    exact absurd (opt_pair_inj h).2 (by simp)
  · rw [if_neg hmem, Option.map_some'] at h
    obtain ⟨hg, -⟩ := opt_pair_inj h
    have hva' : dictContains app'.graph.vertices a = true := by
      rw [hg]
      exact hav
    have hvb' : dictContains app'.graph.vertices b = true := by
      rw [hg]
      exact hbv
    have hs' : dictGet app'.graph.adjacency_list a = some (setAdd s b) := by
      rw [hg]
      exact dictGet_dictSet_self _ _ _
    have hK' : app'.graph.AdjKeysNodup := by
      rw [hg]
      show ((dictSet app.graph.adjacency_list a (setAdd s b)).map Prod.fst).Nodup
      rw [dictSet_map_fst_of_get _ _ _ _ hs]
      exact hK
    have hmem' : b ∈ setAdd s b := (mem_setAdd s b b).mpr (Or.inr rfl)
    refine ⟨⟨setAdd s b, ?_, hmem'⟩, ?_, ?_⟩
    · rw [list_outgoing_present app'.graph a hva']
      exact hs'
    · exact (mem_list_incoming app'.graph hK' b a).mpr
        ⟨hvb', setAdd s b, hs', hmem'⟩
    · have hnod : (setAdd s b).Nodup := setAdd_nodup s b (hN a s hs)
      have hbnot : b ∉ setRemove (setAdd s b) b := by
        rw [mem_setRemove_iff _ _ _ hnod]
        rintro ⟨-, hne⟩
        exact hne rfl
      rw [unfollow_user_eq,
        remove_edge_found app'.graph a b (setAdd s b) hva' hvb' hs',
        if_pos hmem', Option.map_some']
      refine ⟨_, rfl, ⟨setRemove (setAdd s b) b, ?_, hbnot⟩, ?_⟩
      · have hva'' : dictContains
            (({ app'.graph with
                adjacency_list := dictSet app'.graph.adjacency_list a
                  (setRemove (setAdd s b) b) } :
              DirectedGraph String Person)).vertices a = true := hva'
        exact (list_outgoing_present _ a hva'').trans
          (dictGet_dictSet_self _ _ _)
      · have hK'' :
            (({ app'.graph with
                adjacency_list := dictSet app'.graph.adjacency_list a
                  (setRemove (setAdd s b) b) } :
              DirectedGraph String Person)).AdjKeysNodup := by
          show ((dictSet app'.graph.adjacency_list a
            (setRemove (setAdd s b) b)).map Prod.fst).Nodup
          rw [dictSet_map_fst_of_get _ _ _ _ hs']
          exact hK'
        intro hin
        obtain ⟨-, s₃, hget, hmem₃⟩ := (mem_list_incoming _ hK'' b a).mp hin
        have hget' : dictGet (dictSet app'.graph.adjacency_list a
            (setRemove (setAdd s b) b)) a = some (setRemove (setAdd s b) b) :=
          dictGet_dictSet_self _ _ _
        rw [hget'] at hget
        rcases Option.some.inj hget with rfl
        exact hbnot hmem₃

theorem spec_claim_C1_witness :
    (∃ l, appABfollowed.graph.list_outgoing_adjacent_vertices "alice" = some l ∧
      "bob" ∈ l) ∧
    "alice" ∈ appABfollowed.graph.list_incoming_adjacent_vertices "bob" ∧
    (∃ app'' : SocialMediaApp,
      appABfollowed.unfollow_user "alice" "bob" = some (app'', true) ∧
      (∃ l, app''.graph.list_outgoing_adjacent_vertices "alice" = some l ∧
        "bob" ∉ l) ∧
      "alice" ∉ app''.graph.list_incoming_adjacent_vertices "bob") :=
  spec_claim_C1 appAB "alice" "bob" appAB_lockstep appAB_inv appAB_adjKeys
    appAB_adjNodup (by decide) (by decide) appABfollowed appAB_follow_eq

/-- C5: under the facade invariants no operation can raise: the partially
defined operations are always defined, and lookups on an unknown id return
the empty-collection or absent-value sentinel. -/
theorem spec_claim_C5 (app : SocialMediaApp)
    (hL : app.LockStep) (hI : app.graph.Inv) :
    (∀ a b : String, (app.graph.add_edge a b).isSome = true) ∧
    (∀ a b : String, (app.graph.remove_edge a b).isSome = true) ∧
    (∀ id : String,
      (app.graph.list_outgoing_adjacent_vertices id).isSome = true) ∧
    (∀ a b : String, (app.follow_user a b).isSome = true) ∧
    (∀ a b : String, (app.unfollow_user a b).isSome = true) ∧
    (∀ id : String, (app.get_following id).isSome = true) ∧
    (∀ id : String, app.graph.vertex_exists id = false →
      app.graph.list_outgoing_adjacent_vertices id = some [] ∧
      app.graph.list_incoming_adjacent_vertices id = [] ∧
      app.graph.get_vertex_data id = none) ∧
    (∀ id : String, dictContains app.users id = false →
      app.get_following id = some [] ∧
      app.get_followers id = [] ∧
      app.get_user id = none) := by
  refine ⟨fun a b => add_edge_isSome app.graph a b hI,
    fun a b => remove_edge_isSome app.graph a b hI,
    fun id => list_outgoing_isSome app.graph hI id,
    fun a b => ?_, fun a b => ?_, fun id => ?_,
    fun id hv => ⟨list_outgoing_absent _ _ hv, list_incoming_absent _ _ hv,
      dictGet_eq_none_of_not_contains _ _ hv⟩,
    fun id hu => ?_⟩
  · by_cases ha : dictContains app.users a = true
    · by_cases hb : dictContains app.users b = true
      · obtain ⟨gr, hgr⟩ :=
          Option.isSome_iff_exists.mp (add_edge_isSome app.graph a b hI)
        rw [follow_user_present app a b ha hb, hgr]
        rfl
      · rw [Bool.not_eq_true] at hb
        rw [follow_user_missing app a b (Or.inr hb)]
        rfl
    · rw [Bool.not_eq_true] at ha
      rw [follow_user_missing app a b (Or.inl ha)]
      rfl
  · obtain ⟨gr, hgr⟩ :=
      Option.isSome_iff_exists.mp (remove_edge_isSome app.graph a b hI)
    rw [unfollow_user_eq, hgr]
    rfl
  · obtain ⟨l, hl⟩ :=
      Option.isSome_iff_exists.mp (list_outgoing_isSome app.graph hI id)
    show ((app.graph.list_outgoing_adjacent_vertices id).map _).isSome = true
    rw [hl]
    rfl
  · have hv : dictContains app.graph.vertices id = false := by
      rcases hb : dictContains app.graph.vertices id with _ | _
      · rfl
      · exact absurd ((hL id).mpr hb) (by rw [hu]; exact Bool.false_ne_true)
    refine ⟨?_, ?_, dictGet_eq_none_of_not_contains _ _ hu⟩
    · show (app.graph.list_outgoing_adjacent_vertices id).map _ = some []
      rw [list_outgoing_absent _ _ hv]
      rfl
    · show (app.graph.list_incoming_adjacent_vertices id).filterMap _ = []
      rw [list_incoming_absent _ _ hv]
      rfl

theorem spec_claim_C5_witness :
    (∀ a b : String, (appAB.graph.add_edge a b).isSome = true) ∧
    (∀ a b : String, (appAB.graph.remove_edge a b).isSome = true) ∧
    (∀ id : String,
      (appAB.graph.list_outgoing_adjacent_vertices id).isSome = true) ∧
    (∀ a b : String, (appAB.follow_user a b).isSome = true) ∧
    (∀ a b : String, (appAB.unfollow_user a b).isSome = true) ∧
    (∀ id : String, (appAB.get_following id).isSome = true) ∧
    (∀ id : String, appAB.graph.vertex_exists id = false →
      appAB.graph.list_outgoing_adjacent_vertices id = some [] ∧
      appAB.graph.list_incoming_adjacent_vertices id = [] ∧
      appAB.graph.get_vertex_data id = none) ∧
    (∀ id : String, dictContains appAB.users id = false →
      appAB.get_following id = some [] ∧
      appAB.get_followers id = [] ∧
      appAB.get_user id = none) :=
  spec_claim_C5 appAB appAB_lockstep appAB_inv

/-- C10: a successful `unfollow_user a b` affects only the `(a, b)` edge:
`users` and `vertices` are untouched, every adjacency set other than `a`'s
is untouched, and `a`'s adjacency set loses exactly the element `b`. -/
theorem spec_claim_C10 (app : SocialMediaApp) (a b : String)
    (hN : app.graph.AdjNodup)
    (app' : SocialMediaApp)
    (h : app.unfollow_user a b = some (app', true)) :
    app'.users = app.users ∧
    app'.graph.vertices = app.graph.vertices ∧
    (∀ v : String, v ≠ a →
      dictGet app'.graph.adjacency_list v =
        dictGet app.graph.adjacency_list v) ∧
    (∃ s s' : List String,
      dictGet app.graph.adjacency_list a = some s ∧
      dictGet app'.graph.adjacency_list a = some s' ∧
      b ∈ s ∧ ∀ w : String, (w ∈ s' ↔ w ∈ s ∧ w ≠ b)) := by
  obtain ⟨he, hu⟩ := unfollow_user_graph app a b app' true h
  unfold DirectedGraph.remove_edge at he
  split at he
  · exact absurd (opt_pair_inj he).2 (by decide)
  · split at he
    · exact Option.noConfusion he
    · rename_i s heq
      split at he
      · rename_i hmem
        obtain ⟨hg, -⟩ := opt_pair_inj he
        refine ⟨hu, ?_, ?_, s, setRemove s b, heq, ?_, hmem, ?_⟩
        · rw [hg]
        · intro v hv
          rw [hg]
          exact dictGet_dictSet_ne _ _ _ _ hv
        · rw [hg]
          exact dictGet_dictSet_self _ _ _
        · exact fun w => mem_setRemove_iff s b w (hN a s heq)
      · exact absurd (opt_pair_inj he).2 (by decide)

/-- C9: no facade method consults visibility: two runs of the same
operation sequence on profiles identical except for privacy return the
same booleans at every step, end in states that differ only in privacy
fields, and agree on the user-id content of `get_following`,
`get_followers` and `get_all_users`. -/
theorem spec_claim_C9 (a₁ a₂ : SocialMediaApp) (ops₁ ops₂ : List Op)
    (hs : appSim a₁ a₂) (hops : List.Forall₂ OpSim ops₁ ops₂) :
    runResSim (a₁.run ops₁) (a₂.run ops₂) ∧
    (∀ (f₁ f₂ : SocialMediaApp) (bs₁ bs₂ : List Bool),
      a₁.run ops₁ = some (f₁, bs₁) → a₂.run ops₂ = some (f₂, bs₂) →
      bs₁ = bs₂ ∧
      (∀ u : String,
        (f₁.get_following u).map (List.map Person.user_id) =
          (f₂.get_following u).map (List.map Person.user_id)) ∧
      (∀ u : String,
        (f₁.get_followers u).map Person.user_id =
          (f₂.get_followers u).map Person.user_id) ∧
      f₁.get_all_users.map Person.user_id =
        f₂.get_all_users.map Person.user_id) := by
  have hrun := run_sim hops hs
  refine ⟨hrun, fun f₁ f₂ bs₁ bs₂ h₁ h₂ => ?_⟩
  rw [h₁, h₂] at hrun
  obtain ⟨hbs, hsim⟩ := hrun
  exact ⟨hbs, fun u => sim_get_following hsim u,
    fun u => sim_get_followers hsim u, sim_get_all_users hsim⟩

/-- The private sample profile with its visibility flipped to public. -/
def bobPersonPublic : Person := { bobPerson with privacy := Privacy.PUBLIC }

/-- A sample operation sequence. -/
def opsA : List Op :=
  [Op.addUser alicePerson, Op.addUser bobPerson,
   Op.follow "alice" "bob", Op.unfollow "alice" "bob"]

/-- The same sequence with the second profile's privacy flipped. -/
def opsB : List Op :=
  [Op.addUser alicePerson, Op.addUser bobPersonPublic,
   Op.follow "alice" "bob", Op.unfollow "alice" "bob"]

theorem spec_claim_C9_witness :
    runResSim (SocialMediaApp.emptyApp.run opsA)
      (SocialMediaApp.emptyApp.run opsB) ∧
    (∀ (f₁ f₂ : SocialMediaApp) (bs₁ bs₂ : List Bool),
      SocialMediaApp.emptyApp.run opsA = some (f₁, bs₁) →
      SocialMediaApp.emptyApp.run opsB = some (f₂, bs₂) →
      bs₁ = bs₂ ∧
      (∀ u : String,
        (f₁.get_following u).map (List.map Person.user_id) =
          (f₂.get_following u).map (List.map Person.user_id)) ∧
      (∀ u : String,
        (f₁.get_followers u).map Person.user_id =
          (f₂.get_followers u).map Person.user_id) ∧
      f₁.get_all_users.map Person.user_id =
        f₂.get_all_users.map Person.user_id) :=
  spec_claim_C9 SocialMediaApp.emptyApp SocialMediaApp.emptyApp opsA opsB
    ⟨⟨rfl, List.Forall₂.nil⟩, List.Forall₂.nil⟩
    (List.Forall₂.cons ⟨rfl, rfl, rfl, rfl, rfl, rfl⟩
      (List.Forall₂.cons ⟨rfl, rfl, rfl, rfl, rfl, rfl⟩
        (List.Forall₂.cons ⟨rfl, rfl⟩
          (List.Forall₂.cons ⟨rfl, rfl⟩ List.Forall₂.nil))))

theorem spec_claim_C10_witness :
    appABunfollowed.users = appABfollowed.users ∧
    appABunfollowed.graph.vertices = appABfollowed.graph.vertices ∧
    (∀ v : String, v ≠ "alice" →
      dictGet appABunfollowed.graph.adjacency_list v =
        dictGet appABfollowed.graph.adjacency_list v) ∧
    (∃ s s' : List String,
      dictGet appABfollowed.graph.adjacency_list "alice" = some s ∧
      dictGet appABunfollowed.graph.adjacency_list "alice" = some s' ∧
      "bob" ∈ s ∧ ∀ w : String, (w ∈ s' ↔ w ∈ s ∧ w ≠ "bob")) :=
  spec_claim_C10 appABfollowed "alice" "bob" appABfollowed_adjNodup
    appABunfollowed (by decide)

end Claims
